import Mathlib

/-!
# chess_server: archive intersection and head-to-head aggregation

A shallow embedding of `src/index.js`.

* JavaScript strings are Lean `String`s; only equality, `split('/')` and `join('/')` are used.
* `String.prototype.toLowerCase` is a built-in of the runtime, not code of the repository. Every
  function that calls it takes it as the explicit argument `toLowerCase`, so the theorems hold for
  the real built-in. Concrete evaluations use `asciiLower`, which agrees with the built-in on the
  ASCII inputs they are run on.
* The object returned by `calculateHeadToHeadResults` has computed keys, so it is modelled as a
  JavaScript object: an insertion-ordered list of properties in which a key occurs once. Two equal
  usernames share one property, and a username equal to `"totalGames"` shares the property of the
  game counter.
* The upstream fetches are arguments: the outcome of each archive-index fetch, and for the game
  fetches a function of the position of the call in the sequential loop and of the locator.
-/

namespace ChessServer

/-! ## Data model -/

/-- One side of a game: `{username, result}`. -/
structure Player where
  username : String
  result : String
deriving DecidableEq, Repr

/-- A game of the provider: `{white, black}`. -/
structure Game where
  white : Player
  black : Player
deriving DecidableEq, Repr

/-- The counter record `{ wins, draws, losses }`. -/
structure Counts where
  wins : Nat
  draws : Nat
  losses : Nat
deriving DecidableEq, Repr

/-- A property value of the results object: a counter record or a number. -/
inductive Value where
  | counts (c : Counts)
  | num (n : Nat)
deriving DecidableEq, Repr

/-- A JavaScript object with string keys: its properties in insertion order. -/
abbrev Obj := List (String × Value)

/-- Property read `o[k]`; `none` is `undefined`. -/
def getProp : Obj → String → Option Value
  | [], _ => none
  | (k', v') :: rest, k => if k' = k then some v' else getProp rest k

/-- Property definition `o[k] = v`: an existing key keeps its place and takes the new value, a new
key is appended. -/
def setProp : Obj → String → Value → Obj
  | [], k, v => [(k, v)]
  | (k', v') :: rest, k, v => if k' = k then (k', v) :: rest else (k', v') :: setProp rest k v

/-- The table `resultCodes` of `calculateHeadToHeadResults`. -/
structure ResultCodes where
  win : List String
  draw : List String
  loss : List String

/-- The literal of lines 54-58. -/
def resultCodes : ResultCodes where
  win := ["win"]
  draw := ["repetition", "agreed", "stalemate", "insufficient", "50move", "timevsinsufficient"]
  loss := ["checkmated", "timeout", "resigned", "lose", "abandoned"]

/-- The statement `results[k].field += 1`. When `results[k]` is a counter record the field is
incremented. When it is a number (the key collides with `totalGames`) the read gives `undefined`
and the write to a primitive is dropped, the module being sloppy-mode code. The key always exists,
because both usernames are keys of the object literal. -/
def increment (field : Counts → Counts) (results : Obj) (k : String) : Obj :=
  match getProp results k with
  | some (Value.counts c) => setProp results k (Value.counts (field c))
  | _ => results

/-- Field update `wins += 1`. -/
def addWin (c : Counts) : Counts := { c with wins := c.wins + 1 }

/-- Field update `draws += 1`. -/
def addDraw (c : Counts) : Counts := { c with draws := c.draws + 1 }

/-- Field update `losses += 1`. -/
def addLoss (c : Counts) : Counts := { c with losses := c.losses + 1 }

/-- The object literal of lines 60-64: `{[username1]: zeros, [username2]: zeros, totalGames}`,
its properties defined from left to right. -/
def initialResults (username1 username2 : String) (countGames : Nat) : Obj :=
  setProp
    (setProp (setProp [] username1 (Value.counts ⟨0, 0, 0⟩)) username2 (Value.counts ⟨0, 0, 0⟩))
    "totalGames" (Value.num countGames)

/-- The callback of `games.forEach` (lines 66-92). -/
def forEachBody (toLowerCase : String → String) (username1 username2 : String)
    (results : Obj) (game : Game) : Obj :=
  if toLowerCase game.white.username = username1 ∧ toLowerCase game.black.username = username2 then
    let result := game.white.result
    if result ∈ resultCodes.win then
      increment addLoss (increment addWin results username1) username2
    else if result ∈ resultCodes.draw then
      increment addDraw (increment addDraw results username1) username2
    else if result ∈ resultCodes.loss then
      increment addWin (increment addLoss results username1) username2
    else results
  else if toLowerCase game.white.username = username2 ∧
      toLowerCase game.black.username = username1 then
    let result := game.white.result
    if result ∈ resultCodes.win then
      increment addLoss (increment addWin results username2) username1
    else if result ∈ resultCodes.draw then
      increment addDraw (increment addDraw results username1) username2
    else if result ∈ resultCodes.loss then
      increment addWin (increment addLoss results username2) username1
    else results
  else results

/-- The function `calculateHeadToHeadResults` (lines 53-95). -/
def calculateHeadToHeadResults (toLowerCase : String → String) (games : List Game)
    (username1 username2 : String) : Obj :=
  games.foldl (forEachBody toLowerCase username1 username2)
    (initialResults username1 username2 games.length)

/-- The read `tally[k].wins`; `none` is `undefined`. -/
def winsOf (tally : Obj) (k : String) : Option Nat :=
  match getProp tally k with
  | some (Value.counts c) => some c.wins
  | _ => none

/-- The read `tally[k].draws`; `none` is `undefined`. -/
def drawsOf (tally : Obj) (k : String) : Option Nat :=
  match getProp tally k with
  | some (Value.counts c) => some c.draws
  | _ => none

/-- The read `tally[k].losses`; `none` is `undefined`. -/
def lossesOf (tally : Obj) (k : String) : Option Nat :=
  match getProp tally k with
  | some (Value.counts c) => some c.losses
  | _ => none

/-- The sum `tally[k].wins + tally[k].draws + tally[k].losses`; `none` when a term is
`undefined`. -/
def countedOf (tally : Obj) (k : String) : Option Nat :=
  match getProp tally k with
  | some (Value.counts c) => some (c.wins + c.draws + c.losses)
  | _ => none

/-- The read `tally.totalGames`. -/
def totalGamesOf (tally : Obj) : Option Value := getProp tally "totalGames"

/-- Lower-casing of the ASCII letters, used to evaluate the model on ASCII usernames, where it
agrees with the built-in `toLowerCase`. -/
def asciiLower (s : String) : String := String.mk (s.data.map Char.toLower)

/-! ## Archive intersection and matchup filter -/

/-- The call `s.split(sep)` for a one-character separator: the segments between the occurrences of
`sep`, at least one. -/
def split (sep : Char) : List Char → List (List Char)
  | [] => [[]]
  | c :: cs =>
    if c = sep then [] :: split sep cs
    else
      match split sep cs with
      | [] => [[c]]
      | seg :: segs => (c :: seg) :: segs

/-- The call `xs.slice(-n)`: the last `n` elements, all of them when there are fewer. -/
def sliceLast {α : Type} (n : Nat) (xs : List α) : List α := xs.drop (xs.length - n)

/-- The call `segs.join(sep)`. -/
def join (sep : Char) : List (List Char) → List Char
  | [] => []
  | [seg] => seg
  | seg :: rest => seg ++ sep :: join sep rest

/-- The arrow function `formatLink = link => link.split('/').slice(-2).join('/')`. -/
def formatLink (link : String) : String :=
  String.mk (join '/' (sliceLast 2 (split '/' link.data)))

/-- The expression `archives1.filter(archive1 => archives2.some(archive2 =>
formatLink(archive1) === formatLink(archive2)))` of lines 176-178, 205-207, 247-249, 297-299. -/
def commonArchives (archives1 archives2 : List String) : List String :=
  archives1.filter (fun archive1 =>
    archives2.any (fun archive2 => decide (formatLink archive1 = formatLink archive2)))

/-- The expression `games.filter(game => ...)` of lines 214-218, 255-259, 305-309. -/
def playerMatches (toLowerCase : String → String) (games : List Game)
    (username1 username2 : String) : List Game :=
  games.filter (fun game =>
    (decide (toLowerCase game.white.username = toLowerCase username1) &&
      decide (toLowerCase game.black.username = toLowerCase username2))
    ||
    (decide (toLowerCase game.white.username = toLowerCase username2) &&
      decide (toLowerCase game.black.username = toLowerCase username1)))

/-- The matchup extraction as the specification words it: the games, in input order, whose
case-folded unordered pair of usernames is the case-folded unordered pair of the two users. -/
def specExtractMatchups (toLowerCase : String → String) (games : List Game)
    (userA userB : String) : List Game :=
  games.filter (fun game =>
    decide (s(toLowerCase game.white.username, toLowerCase game.black.username)
      = s(toLowerCase userA, toLowerCase userB)))

/-! ## Handlers -/

/-- What a handler sends: `res.json({status: "success", ...})` with its payload, or
`res.status(500).json({status: "error", message})`. -/
inductive Response (α : Type) where
  | success (payload : α)
  | failure (message : String)
deriving DecidableEq, Repr

/-- The handler of `GET /api/chess/players/:username1/:username2/games/archives` (lines 165-191).
Its arguments are the outcomes of the two calls of `fetchPlayerGameArchives` awaited by
`Promise.all`; a rejected promise is `Except.error`. -/
def commonArchivesHandler {ε : Type} (fetched1 fetched2 : Except ε (List String)) :
    Response (List String) :=
  match fetched1, fetched2 with
  | Except.ok archives1, Except.ok archives2 =>
    Response.success (commonArchives archives1 archives2)
  | _, _ => Response.failure "Impossible de récupérer les archives communes"

/-- The loop `for (const archive of commonArchives)` of lines 211-220, from its `i`-th iteration
on. The argument `fetchGamesFromArchive i archive` is the outcome of the call made by iteration
`i`; a rejection leaves the loop with the exception. -/
def collectMatches {ε : Type} (toLowerCase : String → String)
    (fetchGamesFromArchive : Nat → String → Except ε (List Game))
    (username1 username2 : String) : Nat → List String → List Game → Except ε (List Game)
  | _, [], matchList => Except.ok matchList
  | i, archive :: rest, matchList =>
    match fetchGamesFromArchive i archive with
    | Except.error e => Except.error e
    | Except.ok games =>
      collectMatches toLowerCase fetchGamesFromArchive username1 username2 (i + 1) rest
        (matchList ++ playerMatches toLowerCase games username1 username2)

/-- The handler of `GET /api/chess/players/:username1/:username2/games/matches` (lines 194-233):
the `try` block, and the `catch` block for any rejection. -/
def matchesHandler {ε : Type} (toLowerCase : String → String)
    (fetched1 fetched2 : Except ε (List String))
    (fetchGamesFromArchive : Nat → String → Except ε (List Game))
    (username1 username2 : String) : Response (List Game) :=
  match fetched1, fetched2 with
  | Except.ok archives1, Except.ok archives2 =>
    match collectMatches toLowerCase fetchGamesFromArchive username1 username2 0
        (commonArchives archives1 archives2) [] with
    | Except.ok matchList => Response.success matchList
    | Except.error _ => Response.failure "Impossible de récupérer les matchs"
  | _, _ => Response.failure "Impossible de récupérer les matchs"

/-- A write to a record field, lifted to property values: a number is left as it is. -/
def liftField (field : Counts → Counts) : Value → Value
  | Value.counts c => Value.counts (field c)
  | Value.num n => Value.num n

/-- The results object when the three keys are distinct. -/
def pairObj (A B : String) (ca cb : Counts) (n : Nat) : Obj :=
  [(A, Value.counts ca), (B, Value.counts cb), ("totalGames", Value.num n)]

/-- The callback of `forEach` read on the two counter records, for three distinct keys. -/
def pairStep (lc : String → String) (A B : String) (p : Counts × Counts) (g : Game) :
    Counts × Counts :=
  if lc g.white.username = A ∧ lc g.black.username = B then
    if g.white.result ∈ resultCodes.win then (addWin p.1, addLoss p.2)
    else if g.white.result ∈ resultCodes.draw then (addDraw p.1, addDraw p.2)
    else if g.white.result ∈ resultCodes.loss then (addLoss p.1, addWin p.2)
    else p
  else if lc g.white.username = B ∧ lc g.black.username = A then
    if g.white.result ∈ resultCodes.win then (addLoss p.1, addWin p.2)
    else if g.white.result ∈ resultCodes.draw then (addDraw p.1, addDraw p.2)
    else if g.white.result ∈ resultCodes.loss then (addWin p.1, addLoss p.2)
    else p
  else p

/-- The total `wins + draws + losses` of a counter record. -/
def Counts.total (c : Counts) : Nat := c.wins + c.draws + c.losses

/-- A game between `A` and `B`: its lower-cased `(white.username, black.username)` is `(A, B)` or
`(B, A)`. -/
def isMatchup (toLowerCase : String → String) (A B : String) (g : Game) : Prop :=
  (toLowerCase g.white.username = A ∧ toLowerCase g.black.username = B) ∨
  (toLowerCase g.white.username = B ∧ toLowerCase g.black.username = A)

instance (toLowerCase : String → String) (A B : String) (g : Game) :
    Decidable (isMatchup toLowerCase A B g) := by
  unfold isMatchup; infer_instance

/-- A result code of the WIN, DRAW or LOSS class of `resultCodes`. -/
def isRecognized (code : String) : Prop :=
  code ∈ resultCodes.win ∨ code ∈ resultCodes.draw ∨ code ∈ resultCodes.loss

instance (code : String) : Decidable (isRecognized code) := by
  unfold isRecognized; infer_instance

/-! ## The aggregation as the specification words it -/

/-- The three buckets of the specification, and the codes outside them. -/
inductive Outcome where
  | win
  | draw
  | loss
  | unrecognized
deriving DecidableEq, Repr

/-- The classification of a result code as the specification lists it. -/
def specClassify (code : String) : Outcome :=
  if code = "win" then Outcome.win
  else if code = "repetition" ∨ code = "agreed" ∨ code = "stalemate" ∨ code = "insufficient" ∨
      code = "50move" ∨ code = "timevsinsufficient" then Outcome.draw
  else if code = "checkmated" ∨ code = "timeout" ∨ code = "resigned" ∨ code = "lose" ∨
      code = "abandoned" then Outcome.loss
  else Outcome.unrecognized

/-- One step of the specification's fold on the records of `A` (first) and `B` (second). Only
`white.result` is read. The white-side player is `A` when the lower-cased white username is `A`,
and `B` otherwise. -/
def specStep (toLowerCase : String → String) (A : String) (t : Counts × Counts) (g : Game) :
    Counts × Counts :=
  let whiteIsA : Bool := decide (toLowerCase g.white.username = A)
  match specClassify g.white.result with
  | Outcome.win =>
    if whiteIsA then ({ t.1 with wins := t.1.wins + 1 }, { t.2 with losses := t.2.losses + 1 })
    else ({ t.1 with losses := t.1.losses + 1 }, { t.2 with wins := t.2.wins + 1 })
  | Outcome.draw => ({ t.1 with draws := t.1.draws + 1 }, { t.2 with draws := t.2.draws + 1 })
  | Outcome.loss =>
    if whiteIsA then ({ t.1 with losses := t.1.losses + 1 }, { t.2 with wins := t.2.wins + 1 })
    else ({ t.1 with wins := t.1.wins + 1 }, { t.2 with losses := t.2.losses + 1 })
  | Outcome.unrecognized => t

/-- The tally of the specification: the fold of `specStep` from zero records, returned as the
object `{[A]: a, [B]: b, totalGames: length(games)}`. -/
def specAggregate (toLowerCase : String → String) (games : List Game) (A B : String) : Obj :=
  let t := games.foldl (specStep toLowerCase A) (⟨0, 0, 0⟩, ⟨0, 0, 0⟩)
  [(A, Value.counts t.1), (B, Value.counts t.2), ("totalGames", Value.num games.length)]

/-! ## Properties of the results object -/

theorem getProp_setProp (o : Obj) (k k' : String) (v : Value) :
    getProp (setProp o k v) k' = if k = k' then some v else getProp o k' := by
  induction o with
  | nil => simp [setProp, getProp]
  | cons p rest ih =>
    obtain ⟨k0, v0⟩ := p
    by_cases h : k0 = k
    · subst h
      by_cases h' : k0 = k' <;> simp [setProp, getProp, h']
    · by_cases h' : k0 = k'
      · subst h'
        have h2 : ¬ k = k0 := fun e => h e.symm
        simp [setProp, getProp, h, h2]
      · simp [setProp, getProp, h, h', ih]

theorem getProp_increment (field : Counts → Counts) (o : Obj) (k k' : String) :
    getProp (increment field o k) k'
      = if k = k' then (getProp o k).map (liftField field) else getProp o k' := by
  unfold increment
  by_cases h : k = k'
  · subst h
    cases hg : getProp o k with
    | none => simp [hg]
    | some v => cases v <;> simp [hg, liftField, getProp_setProp]
  · cases hg : getProp o k with
    | none => simp [h]
    | some v => cases v <;> simp [h, getProp_setProp]

theorem mem_setProp (o : Obj) (k : String) (v : Value) (p : String × Value)
    (hp : p ∈ setProp o k v) : p ∈ o ∨ p = (k, v) := by
  induction o with
  | nil => simpa [setProp] using hp
  | cons q rest ih =>
    obtain ⟨k0, v0⟩ := q
    by_cases h : k0 = k
    · subst h
      simp only [setProp, if_true, List.mem_cons] at hp
      rcases hp with hp | hp
      · exact Or.inr hp
      · exact Or.inl (List.mem_cons_of_mem _ hp)
    · simp only [setProp, h, if_false, List.mem_cons] at hp
      rcases hp with hp | hp
      · exact Or.inl (hp ▸ List.mem_cons_self _ _)
      · rcases ih hp with h1 | h1
        · exact Or.inl (List.mem_cons_of_mem _ h1)
        · exact Or.inr h1

theorem getProp_initialResults_totalGames (A B : String) (n : Nat) :
    getProp (initialResults A B n) "totalGames" = some (Value.num n) := by
  simp [initialResults, getProp_setProp]

theorem increment_totalGames (field : Counts → Counts) (o : Obj) (k : String) (n : Nat)
    (h : getProp o "totalGames" = some (Value.num n)) :
    getProp (increment field o k) "totalGames" = some (Value.num n) := by
  rw [getProp_increment]
  by_cases hk : k = "totalGames"
  · subst hk; simp [h, liftField]
  · simp [hk, h]

theorem forEachBody_totalGames (lc : String → String) (A B : String) (r : Obj) (g : Game)
    (n : Nat) (h : getProp r "totalGames" = some (Value.num n)) :
    getProp (forEachBody lc A B r g) "totalGames" = some (Value.num n) := by
  unfold forEachBody
  dsimp only
  split_ifs <;> first
    | exact h
    | exact increment_totalGames _ _ _ _ (increment_totalGames _ _ _ _ h)

theorem foldl_totalGames (lc : String → String) (A B : String) (games : List Game) (r : Obj)
    (n : Nat) (h : getProp r "totalGames" = some (Value.num n)) :
    getProp (games.foldl (forEachBody lc A B) r) "totalGames" = some (Value.num n) := by
  induction games generalizing r with
  | nil => exact h
  | cons g rest ih => exact ih _ (forEachBody_totalGames lc A B r g n h)

theorem initialResults_pairObj (A B : String) (n : Nat) (hAB : A ≠ B)
    (hA : A ≠ "totalGames") (hB : B ≠ "totalGames") :
    initialResults A B n = pairObj A B ⟨0, 0, 0⟩ ⟨0, 0, 0⟩ n := by
  simp [initialResults, setProp, pairObj, hAB, hA, hB]

theorem increment_pairObj_fst (f : Counts → Counts) (A B : String) (ca cb : Counts) (n : Nat) :
    increment f (pairObj A B ca cb n) A = pairObj A B (f ca) cb n := by
  simp [increment, pairObj, getProp, setProp]

theorem increment_pairObj_snd (f : Counts → Counts) (A B : String) (ca cb : Counts) (n : Nat)
    (hAB : A ≠ B) :
    increment f (pairObj A B ca cb n) B = pairObj A B ca (f cb) n := by
  simp [increment, pairObj, getProp, setProp, hAB]

theorem forEachBody_pairObj (lc : String → String) (A B : String) (ca cb : Counts) (n : Nat)
    (g : Game) (hAB : A ≠ B) :
    forEachBody lc A B (pairObj A B ca cb n) g
      = pairObj A B (pairStep lc A B (ca, cb) g).1 (pairStep lc A B (ca, cb) g).2 n := by
  have hBA : B ≠ A := fun e => hAB e.symm
  unfold forEachBody pairStep
  dsimp only
  split_ifs <;>
    simp [increment_pairObj_fst, increment_pairObj_snd, hAB, hBA]

theorem foldl_pairObj (lc : String → String) (A B : String) (games : List Game)
    (ca cb : Counts) (n : Nat) (hAB : A ≠ B) :
    games.foldl (forEachBody lc A B) (pairObj A B ca cb n)
      = pairObj A B (games.foldl (pairStep lc A B) (ca, cb)).1
          (games.foldl (pairStep lc A B) (ca, cb)).2 n := by
  induction games generalizing ca cb with
  | nil => rfl
  | cons g rest ih =>
    simp only [List.foldl_cons, forEachBody_pairObj lc A B ca cb n g hAB]
    exact ih _ _

theorem calculate_pairObj (lc : String → String) (games : List Game) (A B : String)
    (hAB : A ≠ B) (hA : A ≠ "totalGames") (hB : B ≠ "totalGames") :
    calculateHeadToHeadResults lc games A B
      = pairObj A B (games.foldl (pairStep lc A B) (⟨0, 0, 0⟩, ⟨0, 0, 0⟩)).1
          (games.foldl (pairStep lc A B) (⟨0, 0, 0⟩, ⟨0, 0, 0⟩)).2 games.length := by
  unfold calculateHeadToHeadResults
  rw [initialResults_pairObj A B _ hAB hA hB, foldl_pairObj lc A B games _ _ _ hAB]

theorem pairStep_eq_specStep (lc : String → String) (A B : String) (p : Counts × Counts)
    (g : Game) (hAB : A ≠ B) (hg : isMatchup lc A B g) :
    pairStep lc A B p g = specStep lc A p g := by
  have hBA : B ≠ A := fun e => hAB e.symm
  unfold pairStep specStep specClassify
  rcases hg with ⟨h1, h2⟩ | ⟨h1, h2⟩
  · simp only [h1, h2, and_self, if_true, decide_True, resultCodes, List.mem_cons,
      List.mem_singleton, List.not_mem_nil, or_false, addWin, addDraw, addLoss]
    split_ifs <;> rfl
  · simp only [h1, h2, hBA, hAB, and_self, and_false, false_and, if_true, if_false,
      decide_False, resultCodes, List.mem_cons,
      List.mem_singleton, List.not_mem_nil, or_false, addWin, addDraw, addLoss]
    split_ifs <;> first | rfl | (exfalso; assumption)

theorem foldl_pairStep_eq_specStep (lc : String → String) (A B : String) (games : List Game)
    (p : Counts × Counts) (hAB : A ≠ B) (hg : ∀ g ∈ games, isMatchup lc A B g) :
    games.foldl (pairStep lc A B) p = games.foldl (specStep lc A) p := by
  induction games generalizing p with
  | nil => rfl
  | cons g rest ih =>
    simp only [List.foldl_cons]
    rw [pairStep_eq_specStep lc A B p g hAB (hg g (List.mem_cons_self _ _))]
    exact ih _ (fun x hx => hg x (List.mem_cons_of_mem _ hx))

/-- C1: for distinct lower-case usernames `A` and `B` and a list of games that are all between `A`
and `B`, `calculateHeadToHeadResults` equals the fold of the specification, which reads only
`white.result`: a WIN code adds a win to the white-side player and a loss to the black-side
player, a DRAW code adds a draw to both, a LOSS code adds a loss to the white-side player and a
win to the black-side player, any other code changes nothing. The hypothesis `hkey` is a fact of
the built-in `toLowerCase`: the string "totalGames" is not lower-case. -/
theorem calculateHeadToHeadResults_eq_specAggregate (toLowerCase : String → String)
    (games : List Game) (A B : String)
    (hkey : toLowerCase "totalGames" ≠ "totalGames")
    (hA : toLowerCase A = A) (hB : toLowerCase B = B) (hAB : A ≠ B)
    (hgames : ∀ g ∈ games,
      (toLowerCase g.white.username, toLowerCase g.black.username) = (A, B) ∨
      (toLowerCase g.white.username, toLowerCase g.black.username) = (B, A)) :
    calculateHeadToHeadResults toLowerCase games A B = specAggregate toLowerCase games A B := by
  have hAk : A ≠ "totalGames" := fun e => hkey (by rw [← e]; exact hA)
  have hBk : B ≠ "totalGames" := fun e => hkey (by rw [← e]; exact hB)
  have hm : ∀ g ∈ games, isMatchup toLowerCase A B g := by
    intro g hg
    rcases hgames g hg with h | h
    · exact Or.inl ⟨congrArg Prod.fst h, congrArg Prod.snd h⟩
    · exact Or.inr ⟨congrArg Prod.fst h, congrArg Prod.snd h⟩
  rw [calculate_pairObj toLowerCase games A B hAB hAk hBk,
    foldl_pairStep_eq_specStep toLowerCase A B games _ hAB hm]
  rfl

/-- C1, the scenario of the specification: the game `a` (white, "win") against `b` (black,
"checkmated") aggregated for `(a, b)` gives `{a: {1,0,0}, b: {0,0,1}, totalGames: 1}`. -/
theorem calculateHeadToHeadResults_eq_specAggregate_witness :
    calculateHeadToHeadResults asciiLower [⟨⟨"a", "win"⟩, ⟨"b", "checkmated"⟩⟩] "a" "b"
      = [("a", Value.counts ⟨1, 0, 0⟩), ("b", Value.counts ⟨0, 0, 1⟩),
          ("totalGames", Value.num 1)] :=
  (calculateHeadToHeadResults_eq_specAggregate asciiLower
    [⟨⟨"a", "win"⟩, ⟨"b", "checkmated"⟩⟩] "a" "b"
    (by decide) (by decide) (by decide) (by decide) (by decide)).trans (by decide)

/-! ### The keys of both usernames stay defined -/

theorem increment_defined (field : Counts → Counts) (o : Obj) (k k' : String)
    (h : getProp o k' ≠ none) : getProp (increment field o k) k' ≠ none := by
  rw [getProp_increment]
  by_cases hk : k = k'
  · subst hk
    cases hg : getProp o k with
    | none => exact absurd hg h
    | some v => simp
  · simpa [hk] using h

theorem forEachBody_defined (lc : String → String) (A B : String) (r : Obj) (g : Game)
    (k : String) (h : getProp r k ≠ none) : getProp (forEachBody lc A B r g) k ≠ none := by
  unfold forEachBody
  dsimp only
  split_ifs <;> first
    | exact h
    | exact increment_defined _ _ _ _ (increment_defined _ _ _ _ h)

theorem initialResults_defined (A B : String) (n : Nat) :
    getProp (initialResults A B n) A ≠ none ∧ getProp (initialResults A B n) B ≠ none := by
  constructor
  · by_cases h1 : "totalGames" = A <;> by_cases h2 : B = A <;>
      simp [initialResults, getProp_setProp, h1, h2]
  · by_cases h1 : "totalGames" = B <;> simp [initialResults, getProp_setProp, h1]

/-- In every state reached by the loop the properties of both usernames are defined, so the reads
`results[username].field` of the callback never meet `undefined`. -/
theorem foldl_defined (lc : String → String) (A B : String) (games : List Game) (r : Obj)
    (k : String) (h : getProp r k ≠ none) :
    getProp (games.foldl (forEachBody lc A B) r) k ≠ none := by
  induction games generalizing r with
  | nil => exact h
  | cons g rest ih => exact ih _ (forEachBody_defined lc A B r g k h)

/-! ### Zero-sum -/

theorem forEachBody_balanced (lc : String → String) (A B : String) (r : Obj) (g : Game)
    (h : ∃ ca cb, getProp r A = some (Value.counts ca) ∧ getProp r B = some (Value.counts cb) ∧
      ca.wins = cb.losses ∧ ca.losses = cb.wins ∧ ca.draws = cb.draws) :
    ∃ ca cb, getProp (forEachBody lc A B r g) A = some (Value.counts ca) ∧
      getProp (forEachBody lc A B r g) B = some (Value.counts cb) ∧
      ca.wins = cb.losses ∧ ca.losses = cb.wins ∧ ca.draws = cb.draws := by
  obtain ⟨ca, cb, hA, hB, h1, h2, h3⟩ := h
  unfold forEachBody
  dsimp only
  by_cases hAB : A = B
  · subst hAB
    have hc : cb = ca := by
      rw [hA] at hB
      exact (Value.counts.inj (Option.some.inj hB)).symm
    subst hc
    split_ifs <;>
      simp [getProp_increment, hA, liftField, addWin, addDraw, addLoss] <;> omega
  · have hBA : ¬ B = A := fun e => hAB e.symm
    split_ifs <;>
      simp [getProp_increment, hA, hB, hAB, hBA, liftField, addWin, addDraw, addLoss, h1, h2, h3]

theorem foldl_balanced (lc : String → String) (A B : String) (games : List Game) (r : Obj)
    (h : ∃ ca cb, getProp r A = some (Value.counts ca) ∧ getProp r B = some (Value.counts cb) ∧
      ca.wins = cb.losses ∧ ca.losses = cb.wins ∧ ca.draws = cb.draws) :
    ∃ ca cb, getProp (games.foldl (forEachBody lc A B) r) A = some (Value.counts ca) ∧
      getProp (games.foldl (forEachBody lc A B) r) B = some (Value.counts cb) ∧
      ca.wins = cb.losses ∧ ca.losses = cb.wins ∧ ca.draws = cb.draws := by
  induction games generalizing r with
  | nil => exact h
  | cons g rest ih => exact ih _ (forEachBody_balanced lc A B r g h)

theorem initialResults_balanced (A B : String) (n : Nat)
    (hA : A ≠ "totalGames") (hB : B ≠ "totalGames") :
    ∃ ca cb, getProp (initialResults A B n) A = some (Value.counts ca) ∧
      getProp (initialResults A B n) B = some (Value.counts cb) ∧
      ca.wins = cb.losses ∧ ca.losses = cb.wins ∧ ca.draws = cb.draws := by
  refine ⟨⟨0, 0, 0⟩, ⟨0, 0, 0⟩, ?_, ?_, rfl, rfl, rfl⟩
  · simp [initialResults, getProp_setProp, hA.symm]
  · simp [initialResults, getProp_setProp, hB.symm]

/-- C2 as stated fails: for `A = "totalGames"` the property of `A` is the game counter, so
`tally[A].wins` is `undefined` while `tally[B].losses` is `0`. -/
theorem zeroSum_counterexample :
    winsOf (calculateHeadToHeadResults asciiLower [] "totalGames" "b") "totalGames" = none ∧
    lossesOf (calculateHeadToHeadResults asciiLower [] "totalGames" "b") "b" = some 0 ∧
    winsOf (calculateHeadToHeadResults asciiLower [] "totalGames" "b") "totalGames"
      ≠ lossesOf (calculateHeadToHeadResults asciiLower [] "totalGames" "b") "b" := by
  decide

/-- C2 (amended): for every list of games and all usernames `A` and `B` other than the key
"totalGames" (equal or not), the three counters of both players are defined and
`tally[A].wins = tally[B].losses`, `tally[A].losses = tally[B].wins`,
`tally[A].draws = tally[B].draws`. -/
theorem zeroSum (toLowerCase : String → String) (games : List Game) (A B : String)
    (hA : A ≠ "totalGames") (hB : B ≠ "totalGames") :
    (∃ w, winsOf (calculateHeadToHeadResults toLowerCase games A B) A = some w ∧
      lossesOf (calculateHeadToHeadResults toLowerCase games A B) B = some w) ∧
    (∃ l, lossesOf (calculateHeadToHeadResults toLowerCase games A B) A = some l ∧
      winsOf (calculateHeadToHeadResults toLowerCase games A B) B = some l) ∧
    (∃ d, drawsOf (calculateHeadToHeadResults toLowerCase games A B) A = some d ∧
      drawsOf (calculateHeadToHeadResults toLowerCase games A B) B = some d) := by
  obtain ⟨ca, cb, h1, h2, h3, h4, h5⟩ :=
    foldl_balanced toLowerCase A B games _ (initialResults_balanced A B games.length hA hB)
  unfold calculateHeadToHeadResults winsOf lossesOf drawsOf
  rw [h1, h2]
  exact ⟨⟨ca.wins, rfl, by simp [h3]⟩, ⟨ca.losses, rfl, by simp [h4]⟩, ⟨ca.draws, rfl, by simp [h5]⟩⟩

/-- C2 (amended), at a concrete input: two games between `a` and `b`, stored in upper case. -/
theorem zeroSum_witness :
    (∃ w, winsOf (calculateHeadToHeadResults asciiLower
        [⟨⟨"A", "win"⟩, ⟨"b", "checkmated"⟩⟩, ⟨⟨"B", "agreed"⟩, ⟨"a", "agreed"⟩⟩] "a" "b") "a"
        = some w ∧
      lossesOf (calculateHeadToHeadResults asciiLower
        [⟨⟨"A", "win"⟩, ⟨"b", "checkmated"⟩⟩, ⟨⟨"B", "agreed"⟩, ⟨"a", "agreed"⟩⟩] "a" "b") "b"
        = some w) :=
  (zeroSum asciiLower
    [⟨⟨"A", "win"⟩, ⟨"b", "checkmated"⟩⟩, ⟨⟨"B", "agreed"⟩, ⟨"a", "agreed"⟩⟩] "a" "b"
    (by decide) (by decide)).1

/-! ### Counted games against `totalGames` -/

theorem pairStep_total_le (lc : String → String) (A B : String) (p : Counts × Counts) (g : Game) :
    (pairStep lc A B p g).1.total ≤ p.1.total + 1 ∧
    (pairStep lc A B p g).2.total ≤ p.2.total + 1 := by
  unfold pairStep
  split_ifs <;> simp [Counts.total, addWin, addDraw, addLoss] <;> omega

theorem pairStep_total_eq (lc : String → String) (A B : String) (p : Counts × Counts) (g : Game)
    (hm : isMatchup lc A B g) (hr : isRecognized g.white.result) :
    (pairStep lc A B p g).1.total = p.1.total + 1 ∧
    (pairStep lc A B p g).2.total = p.2.total + 1 := by
  unfold isMatchup at hm
  unfold isRecognized at hr
  unfold pairStep
  split_ifs <;> simp [Counts.total, addWin, addDraw, addLoss] <;> first | omega | tauto

theorem foldl_pairStep_total_le (lc : String → String) (A B : String) (games : List Game)
    (p : Counts × Counts) :
    (games.foldl (pairStep lc A B) p).1.total ≤ p.1.total + games.length ∧
    (games.foldl (pairStep lc A B) p).2.total ≤ p.2.total + games.length := by
  induction games generalizing p with
  | nil => simp
  | cons g rest ih =>
    have h1 := pairStep_total_le lc A B p g
    have h2 := ih (pairStep lc A B p g)
    simp only [List.foldl_cons, List.length_cons]
    omega

theorem foldl_pairStep_total_eq (lc : String → String) (A B : String) (games : List Game)
    (p : Counts × Counts)
    (h : ∀ g ∈ games, isMatchup lc A B g ∧ isRecognized g.white.result) :
    (games.foldl (pairStep lc A B) p).1.total = p.1.total + games.length ∧
    (games.foldl (pairStep lc A B) p).2.total = p.2.total + games.length := by
  induction games generalizing p with
  | nil => simp
  | cons g rest ih =>
    have hg := h g (List.mem_cons_self _ _)
    have h1 := pairStep_total_eq lc A B p g hg.1 hg.2
    have h2 := ih (pairStep lc A B p g) (fun x hx => h x (List.mem_cons_of_mem _ hx))
    simp only [List.foldl_cons, List.length_cons]
    omega

/-- C3 as stated fails in three ways. With `A = B` one game is counted twice in the shared record
(2 counted, `totalGames` 1). A game of other players with a recognized code is in `totalGames`
and in no bucket (0 counted, `totalGames` 1, no unrecognized code). With `A = "totalGames"` the
counters of `A` are `undefined`. -/
theorem counted_le_totalGames_counterexample :
    (countedOf (calculateHeadToHeadResults asciiLower
        [⟨⟨"a", "win"⟩, ⟨"a", "checkmated"⟩⟩] "a" "a") "a" = some 2 ∧
      totalGamesOf (calculateHeadToHeadResults asciiLower
        [⟨⟨"a", "win"⟩, ⟨"a", "checkmated"⟩⟩] "a" "a") = some (Value.num 1)) ∧
    (isRecognized "win" ∧
      countedOf (calculateHeadToHeadResults asciiLower
        [⟨⟨"c", "win"⟩, ⟨"d", "checkmated"⟩⟩] "a" "b") "a" = some 0 ∧
      totalGamesOf (calculateHeadToHeadResults asciiLower
        [⟨⟨"c", "win"⟩, ⟨"d", "checkmated"⟩⟩] "a" "b") = some (Value.num 1)) ∧
    countedOf (calculateHeadToHeadResults asciiLower [] "totalGames" "b") "totalGames" = none := by
  decide

/-- C3 (amended): for every list of games and all distinct usernames `A` and `B` other than the
key "totalGames", each player's `wins + draws + losses` is defined and at most `totalGames`, and
it equals `totalGames` whenever every game of the list is between `A` and `B` (its lower-cased
white and black usernames are `(A, B)` or `(B, A)`) and has a white result code of the WIN, DRAW
or LOSS class. -/
theorem counted_le_totalGames (toLowerCase : String → String) (games : List Game) (A B : String)
    (hAB : A ≠ B) (hA : A ≠ "totalGames") (hB : B ≠ "totalGames") :
    ∃ na nb total,
      countedOf (calculateHeadToHeadResults toLowerCase games A B) A = some na ∧
      countedOf (calculateHeadToHeadResults toLowerCase games A B) B = some nb ∧
      totalGamesOf (calculateHeadToHeadResults toLowerCase games A B) = some (Value.num total) ∧
      na ≤ total ∧ nb ≤ total ∧
      ((∀ g ∈ games, isMatchup toLowerCase A B g ∧ isRecognized g.white.result) →
        na = total ∧ nb = total) := by
  have hBA : B ≠ A := fun e => hAB e.symm
  have hle := foldl_pairStep_total_le toLowerCase A B games (⟨0, 0, 0⟩, ⟨0, 0, 0⟩)
  refine ⟨(games.foldl (pairStep toLowerCase A B) (⟨0, 0, 0⟩, ⟨0, 0, 0⟩)).1.total,
    (games.foldl (pairStep toLowerCase A B) (⟨0, 0, 0⟩, ⟨0, 0, 0⟩)).2.total, games.length,
    ?_, ?_, ?_, ?_, ?_, ?_⟩
  · rw [calculate_pairObj toLowerCase games A B hAB hA hB]
    simp [countedOf, pairObj, getProp, Counts.total]
  · rw [calculate_pairObj toLowerCase games A B hAB hA hB]
    simp [countedOf, pairObj, getProp, Counts.total, hAB]
  · rw [calculate_pairObj toLowerCase games A B hAB hA hB]
    simp [totalGamesOf, pairObj, getProp, hA, hB]
  · simpa [Counts.total] using hle.1
  · simpa [Counts.total] using hle.2
  · intro h
    have heq := foldl_pairStep_total_eq toLowerCase A B games (⟨0, 0, 0⟩, ⟨0, 0, 0⟩) h
    simpa [Counts.total] using heq

/-- C3 (amended), at a concrete input: a win and a draw between `a` and `b`, where both totals
equal `totalGames`. -/
theorem counted_le_totalGames_witness :
    ∃ na nb total,
      countedOf (calculateHeadToHeadResults asciiLower
        [⟨⟨"a", "win"⟩, ⟨"B", "checkmated"⟩⟩, ⟨⟨"b", "agreed"⟩, ⟨"A", "agreed"⟩⟩]
        "a" "b") "a" = some na ∧
      countedOf (calculateHeadToHeadResults asciiLower
        [⟨⟨"a", "win"⟩, ⟨"B", "checkmated"⟩⟩, ⟨⟨"b", "agreed"⟩, ⟨"A", "agreed"⟩⟩]
        "a" "b") "b" = some nb ∧
      totalGamesOf (calculateHeadToHeadResults asciiLower
        [⟨⟨"a", "win"⟩, ⟨"B", "checkmated"⟩⟩, ⟨⟨"b", "agreed"⟩, ⟨"A", "agreed"⟩⟩]
        "a" "b") = some (Value.num total) ∧
      na = total ∧ nb = total := by
  obtain ⟨na, nb, total, h1, h2, h3, _, _, h6⟩ := counted_le_totalGames asciiLower
    [⟨⟨"a", "win"⟩, ⟨"B", "checkmated"⟩⟩, ⟨⟨"b", "agreed"⟩, ⟨"A", "agreed"⟩⟩] "a" "b"
    (by decide) (by decide) (by decide)
  exact ⟨na, nb, total, h1, h2, h3, h6 (by decide)⟩

/-! ### Total conservation -/

/-- C4: for every list of games and all usernames `A` and `B`, `totalGames` of the tally is the
length of the list, whatever the result codes are. For the empty list the tally is the object
literal with zero counters: every property value is the zero record or the number 0, the
property of each username is the zero record (the number 0 for the key "totalGames"), and
`totalGames` is 0. The scenario of the specification, one game with the code
"threefoldrepetition", is counted in `totalGames` and in no bucket. -/
theorem totalGames_eq_length (toLowerCase : String → String) (games : List Game)
    (A B : String) :
    totalGamesOf (calculateHeadToHeadResults toLowerCase games A B)
      = some (Value.num games.length) ∧
    totalGamesOf (calculateHeadToHeadResults toLowerCase [] A B) = some (Value.num 0) ∧
    (∀ p ∈ calculateHeadToHeadResults toLowerCase [] A B,
      p.2 = Value.counts ⟨0, 0, 0⟩ ∨ p.2 = Value.num 0) ∧
    getProp (calculateHeadToHeadResults toLowerCase [] A B) A
      = (if A = "totalGames" then some (Value.num 0) else some (Value.counts ⟨0, 0, 0⟩)) ∧
    getProp (calculateHeadToHeadResults toLowerCase [] A B) B
      = (if B = "totalGames" then some (Value.num 0) else some (Value.counts ⟨0, 0, 0⟩)) ∧
    calculateHeadToHeadResults asciiLower
        [⟨⟨"a", "threefoldrepetition"⟩, ⟨"b", "threefoldrepetition"⟩⟩] "a" "b"
      = [("a", Value.counts ⟨0, 0, 0⟩), ("b", Value.counts ⟨0, 0, 0⟩),
          ("totalGames", Value.num 1)] := by
  refine ⟨?_, ?_, ?_, ?_, ?_, by decide⟩
  · exact foldl_totalGames toLowerCase A B games _ games.length
      (getProp_initialResults_totalGames A B games.length)
  · exact getProp_initialResults_totalGames A B 0
  · intro p hp
    simp only [calculateHeadToHeadResults, List.foldl_nil, List.length_nil, initialResults] at hp
    rcases mem_setProp _ _ _ _ hp with hp | hp
    · rcases mem_setProp _ _ _ _ hp with hp | hp
      · rcases mem_setProp _ _ _ _ hp with hp | hp
        · exact absurd hp (List.not_mem_nil _)
        · exact Or.inl (by rw [hp])
      · exact Or.inl (by rw [hp])
    · exact Or.inr (by rw [hp])
  · by_cases h : A = "totalGames"
    · simp [calculateHeadToHeadResults, initialResults, getProp_setProp, h]
    · have h' : ¬ "totalGames" = A := fun e => h e.symm
      simp [calculateHeadToHeadResults, initialResults, getProp_setProp, h, h']
  · by_cases h : B = "totalGames"
    · simp [calculateHeadToHeadResults, initialResults, getProp_setProp, h]
    · have h' : ¬ "totalGames" = B := fun e => h e.symm
      simp [calculateHeadToHeadResults, initialResults, getProp_setProp, h, h']

/-! ### Case of the usernames passed in -/

/-- C9 as stated fails: the game's usernames are lower-cased, the usernames passed in are not. For
`A = "Magnus"`, `B = "hikaru"` and the game `magnus` (white, "win") against `hikaru`, which are
`A` and `B` ignoring case, no branch matches and `tally[A].wins` is 0. -/
theorem caseInsensitiveAssignment_counterexample :
    asciiLower "Magnus" ≠ asciiLower "hikaru" ∧
    asciiLower "magnus" = asciiLower "Magnus" ∧
    asciiLower "hikaru" = asciiLower "hikaru" ∧
    winsOf (calculateHeadToHeadResults asciiLower
      [⟨⟨"magnus", "win"⟩, ⟨"hikaru", "checkmated"⟩⟩] "Magnus" "hikaru") "Magnus" = some 0 ∧
    lossesOf (calculateHeadToHeadResults asciiLower
      [⟨⟨"magnus", "win"⟩, ⟨"hikaru", "checkmated"⟩⟩] "Magnus" "hikaru") "hikaru" = some 0 := by
  decide

/-- C9 (amended): `calculateHeadToHeadResults` lower-cases the usernames of the game and compares
them with the usernames as passed in, which are the keys of its output. For all distinct
lower-case usernames `A` and `B` and every game whose lower-cased white username is `A`, whose
lower-cased black username is `B` and whose `white.result` is "win", the tally of the one-game
list is `{[A]: {1,0,0}, [B]: {0,0,1}, totalGames: 1}`, so `tally[A].wins = 1` and
`tally[B].losses = 1`. The hypothesis `hkey` is a fact of the built-in `toLowerCase`. -/
theorem lowerCaseAssignment (toLowerCase : String → String) (A B : String) (g : Game)
    (hkey : toLowerCase "totalGames" ≠ "totalGames")
    (hA : toLowerCase A = A) (hB : toLowerCase B = B) (hAB : A ≠ B)
    (hw : toLowerCase g.white.username = A) (hb : toLowerCase g.black.username = B)
    (hr : g.white.result = "win") :
    calculateHeadToHeadResults toLowerCase [g] A B
      = [(A, Value.counts ⟨1, 0, 0⟩), (B, Value.counts ⟨0, 0, 1⟩), ("totalGames", Value.num 1)] ∧
    winsOf (calculateHeadToHeadResults toLowerCase [g] A B) A = some 1 ∧
    lossesOf (calculateHeadToHeadResults toLowerCase [g] A B) B = some 1 := by
  have hAk : A ≠ "totalGames" := fun e => hkey (by rw [← e]; exact hA)
  have hBk : B ≠ "totalGames" := fun e => hkey (by rw [← e]; exact hB)
  have hBA : B ≠ A := fun e => hAB e.symm
  have hEq : calculateHeadToHeadResults toLowerCase [g] A B
      = [(A, Value.counts ⟨1, 0, 0⟩), (B, Value.counts ⟨0, 0, 1⟩),
          ("totalGames", Value.num 1)] := by
    rw [calculate_pairObj toLowerCase [g] A B hAB hAk hBk]
    simp [pairStep, hw, hb, hr, resultCodes, pairObj, addWin, addLoss]
  refine ⟨hEq, ?_, ?_⟩
  · rw [hEq]; simp [winsOf, getProp]
  · rw [hEq]; simp [lossesOf, getProp, hAB]

/-- C9 (amended), at a concrete input: the stored usernames are in mixed case, the usernames
passed in are lower-case. -/
theorem lowerCaseAssignment_witness :
    winsOf (calculateHeadToHeadResults asciiLower
      [⟨⟨"Magnus", "win"⟩, ⟨"HIKARU", "checkmated"⟩⟩] "magnus" "hikaru") "magnus" = some 1 ∧
    lossesOf (calculateHeadToHeadResults asciiLower
      [⟨⟨"Magnus", "win"⟩, ⟨"HIKARU", "checkmated"⟩⟩] "magnus" "hikaru") "hikaru" = some 1 :=
  (lowerCaseAssignment asciiLower "magnus" "hikaru" ⟨⟨"Magnus", "win"⟩, ⟨"HIKARU", "checkmated"⟩⟩
    (by decide) (by decide) (by decide) (by decide) (by decide) (by decide) (by decide)).2

/-! ### Matchup filter -/

/-- C5: for every list of games and all usernames `A` and `B` in any letter case, the matchup
filter returns exactly the games, in input order, whose case-folded unordered pair of usernames
equals the case-folded unordered pair of `A` and `B`: it is a sublist of the input, a game is in
it exactly when it is in the input with that pair, and exchanging `A` and `B` gives the same
list. -/
theorem playerMatches_eq_specExtractMatchups (toLowerCase : String → String)
    (games : List Game) (A B : String) :
    playerMatches toLowerCase games A B = specExtractMatchups toLowerCase games A B ∧
    List.Sublist (playerMatches toLowerCase games A B) games ∧
    (∀ g, g ∈ playerMatches toLowerCase games A B ↔
      g ∈ games ∧ s(toLowerCase g.white.username, toLowerCase g.black.username)
        = s(toLowerCase A, toLowerCase B)) ∧
    playerMatches toLowerCase games A B = playerMatches toLowerCase games B A := by
  have h1 : playerMatches toLowerCase games A B = specExtractMatchups toLowerCase games A B := by
    unfold playerMatches specExtractMatchups
    apply List.filter_congr
    intro g _
    simp only [Sym2.eq_iff, Bool.decide_or, Bool.decide_and]
  refine ⟨h1, ?_, ?_, ?_⟩
  · exact List.filter_sublist _
  · intro g
    rw [h1]
    simp [specExtractMatchups, List.mem_filter]
  · unfold playerMatches
    apply List.filter_congr
    intro g _
    exact Bool.or_comm _ _

/-! ### Period keys -/

theorem split_ne_nil (sep : Char) (s : List Char) : split sep s ≠ [] := by
  cases s with
  | nil => simp [split]
  | cons c cs =>
    unfold split
    split_ifs
    · simp
    · split <;> simp

theorem join_cons_of_ne_nil (sep : Char) (seg : List Char) (rest : List (List Char))
    (h : rest ≠ []) : join sep (seg :: rest) = seg ++ sep :: join sep rest := by
  cases rest with
  | nil => exact absurd rfl h
  | cons r rs => rfl

theorem join_cons_cons (sep : Char) (c : Char) (seg : List Char) (segs : List (List Char)) :
    join sep ((c :: seg) :: segs) = c :: join sep (seg :: segs) := by
  cases segs with
  | nil => rfl
  | cons r rs => rfl

theorem join_split (sep : Char) (s : List Char) : join sep (split sep s) = s := by
  induction s with
  | nil => rfl
  | cons c cs ih =>
    unfold split
    split_ifs with h
    · rw [join_cons_of_ne_nil sep [] _ (split_ne_nil sep cs), ih, h]
      rfl
    · have hne := split_ne_nil sep cs
      split
      · next heq => exact absurd heq hne
      · next seg segs heq =>
        rw [join_cons_cons, ← heq, ih]

theorem split_of_not_mem (sep : Char) (s : List Char) (h : sep ∉ s) : split sep s = [s] := by
  induction s with
  | nil => rfl
  | cons c cs ih =>
    have hc : ¬ c = sep := fun e => h (e ▸ List.mem_cons_self _ _)
    have hcs : sep ∉ cs := fun e => h (List.mem_cons_of_mem _ e)
    unfold split
    rw [if_neg hc, ih hcs]

theorem split_append_sep (sep : Char) (s t : List Char) (h : sep ∉ s) :
    split sep (s ++ sep :: t) = s :: split sep t := by
  induction s with
  | nil => simp [split]
  | cons c cs ih =>
    have hc : ¬ c = sep := fun e => h (e ▸ List.mem_cons_self _ _)
    have hcs : sep ∉ cs := fun e => h (List.mem_cons_of_mem _ e)
    rw [List.cons_append, split, if_neg hc, ih hcs]

theorem split_join (sep : Char) (segs : List (List Char)) (hne : segs ≠ [])
    (h : ∀ seg ∈ segs, sep ∉ seg) : split sep (join sep segs) = segs := by
  induction segs with
  | nil => exact absurd rfl hne
  | cons seg rest ih =>
    cases rest with
    | nil => exact split_of_not_mem sep seg (h seg (List.mem_cons_self _ _))
    | cons r rs =>
      rw [join_cons_of_ne_nil sep seg (r :: rs) (List.cons_ne_nil _ _),
        split_append_sep sep seg _ (h seg (List.mem_cons_self _ _)),
        ih (List.cons_ne_nil _ _) (fun x hx => h x (List.mem_cons_of_mem _ hx))]

theorem formatLink_join (segs : List (List Char)) (hne : segs ≠ [])
    (h : ∀ seg ∈ segs, '/' ∉ seg) :
    formatLink (String.mk (join '/' segs)) = String.mk (join '/' (sliceLast 2 segs)) := by
  unfold formatLink
  rw [split_join '/' segs hne h]

theorem formatLink_of_one_segment (link : String) (h : (split '/' link.data).length < 2) :
    formatLink link = link := by
  have hj := join_split '/' link.data
  unfold formatLink
  cases hs : split '/' link.data with
  | nil => exact absurd hs (split_ne_nil _ _)
  | cons seg rest =>
    cases rest with
    | nil =>
      rw [hs] at hj
      simp only [sliceLast, List.length_singleton, List.drop_zero, Nat.sub_eq_zero_of_le,
        Nat.one_le_ofNat]
      rw [hj]
    | cons r rs =>
      rw [hs] at h
      simp only [List.length_cons] at h
      omega

/-! ### Archive intersection -/

/-- C6: for all locator lists, the common-archive computation returns exactly the locators of
`locatorsA`, in their order, with their values and their repeats, whose period key is the period
key of at least one element of `locatorsB`; it is empty when no key matches. The period key of a
locator made of '/'-free segments is its last two segments joined by '/'. The scenario of the
specification, 2020/01 and 2020/02 against 2020/02 and 2020/03, gives the 2020/02 locator of the
first list. -/
theorem commonArchives_spec (locatorsA locatorsB : List String) :
    commonArchives locatorsA locatorsB
      = locatorsA.filter (fun a => decide (∃ b ∈ locatorsB, formatLink b = formatLink a)) ∧
    List.Sublist (commonArchives locatorsA locatorsB) locatorsA ∧
    (∀ a, List.count a (commonArchives locatorsA locatorsB)
      = if ∃ b ∈ locatorsB, formatLink b = formatLink a then List.count a locatorsA else 0) ∧
    ((∀ a ∈ locatorsA, ∀ b ∈ locatorsB, formatLink b ≠ formatLink a) →
      commonArchives locatorsA locatorsB = []) ∧
    (∀ segs : List (List Char), segs ≠ [] → (∀ seg ∈ segs, '/' ∉ seg) →
      formatLink (String.mk (join '/' segs)) = String.mk (join '/' (sliceLast 2 segs))) ∧
    commonArchives
      ["https://api.chess.com/pub/player/a/games/2020/01",
        "https://api.chess.com/pub/player/a/games/2020/02"]
      ["https://api.chess.com/pub/player/b/games/2020/02",
        "https://api.chess.com/pub/player/b/games/2020/03"]
      = ["https://api.chess.com/pub/player/a/games/2020/02"] := by
  have h1 : commonArchives locatorsA locatorsB
      = locatorsA.filter (fun a => decide (∃ b ∈ locatorsB, formatLink b = formatLink a)) := by
    unfold commonArchives
    apply List.filter_congr
    intro a _
    rw [Bool.eq_iff_iff]
    simp only [List.any_eq_true, decide_eq_true_eq]
    constructor
    · rintro ⟨b, hb, he⟩
      exact ⟨b, hb, he.symm⟩
    · rintro ⟨b, hb, he⟩
      exact ⟨b, hb, he.symm⟩
  refine ⟨h1, ?_, ?_, ?_, ?_, ?_⟩
  · exact List.filter_sublist _
  · intro a
    rw [h1]
    by_cases h : ∃ b ∈ locatorsB, formatLink b = formatLink a
    · rw [if_pos h]
      exact List.count_filter (by simpa using h)
    · rw [if_neg h]
      apply List.count_eq_zero_of_not_mem
      intro hmem
      exact h (by simpa using (List.mem_filter.mp hmem).2)
  · intro hno
    rw [h1, List.filter_eq_nil_iff]
    intro a ha
    simp only [decide_eq_true_eq, not_exists, not_and]
    exact fun b hb => hno a ha b hb
  · exact formatLink_join
  · decide

/-- C7: the set of period keys of the intersection does not depend on which list is primary. -/
theorem commonArchives_periods_symm (locatorsA locatorsB : List String) :
    ((commonArchives locatorsA locatorsB).map formatLink).toFinset
      = ((commonArchives locatorsB locatorsA).map formatLink).toFinset := by
  ext k
  simp only [List.mem_toFinset, List.mem_map, commonArchives, List.mem_filter, List.any_eq_true,
    decide_eq_true_eq]
  constructor
  · rintro ⟨a, ⟨ha, b, hb, he⟩, hk⟩
    exact ⟨b, ⟨hb, a, ha, he.symm⟩, he ▸ hk⟩
  · rintro ⟨a, ⟨ha, b, hb, he⟩, hk⟩
    exact ⟨b, ⟨hb, a, ha, he.symm⟩, he ▸ hk⟩

/-! ### Malformed locators -/

/-- C10 as stated fails: the locator "2020" has one '/'-delimited segment, `formatLink` returns
"2020" as its period key, and the archive intersection of two such lists answers with success. -/
theorem formatLink_malformed_counterexample :
    (split '/' "2020".data).length = 1 ∧
    formatLink "2020" = "2020" ∧
    commonArchivesHandler (Except.ok ["2020"] : Except String (List String)) (Except.ok ["2020"])
      = Response.success ["2020"] := by
  decide

/-- C10 (amended): for every archive locator with fewer than two '/'-delimited segments,
`formatLink` raises no error and returns the whole locator as its period key, so the archive
intersection compares such a locator by its whole text and answers with success. -/
theorem formatLink_malformed_total (link : String) (other : List String)
    (h : (split '/' link.data).length < 2) :
    formatLink link = link ∧
    commonArchivesHandler (Except.ok [link] : Except String (List String)) (Except.ok other)
      = Response.success
          (if ∃ b ∈ other, formatLink b = link then [link] else []) := by
  have hf := formatLink_of_one_segment link h
  refine ⟨hf, ?_⟩
  unfold commonArchivesHandler commonArchives
  simp only [hf, List.filter_cons, List.filter_nil]
  by_cases hex : ∃ b ∈ other, formatLink b = link
  · have : (other.any fun archive2 => decide (link = formatLink archive2)) = true := by
      obtain ⟨b, hb, he⟩ := hex
      exact List.any_eq_true.mpr ⟨b, hb, by simpa using he.symm⟩
    simp [this, hex]
  · have : (other.any fun archive2 => decide (link = formatLink archive2)) = false := by
      rw [Bool.eq_false_iff]
      intro ht
      obtain ⟨b, hb, he⟩ := List.any_eq_true.mp ht
      exact hex ⟨b, hb, (by simpa using he : link = formatLink b).symm⟩
    simp [this, hex]

/-- C10 (amended), at a concrete input: the one-segment locator "2020" against a well-formed
locator and itself. -/
theorem formatLink_malformed_total_witness :
    formatLink "2020" = "2020" ∧
    commonArchivesHandler (Except.ok ["2020"] : Except String (List String))
        (Except.ok ["https://api.chess.com/pub/player/b/games/2020/03", "2020"])
      = Response.success
          (if ∃ b ∈ ["https://api.chess.com/pub/player/b/games/2020/03", "2020"],
              formatLink b = "2020" then ["2020"] else []) :=
  formatLink_malformed_total "2020" ["https://api.chess.com/pub/player/b/games/2020/03", "2020"]
    (by decide)

/-! ### No partial result in the matches operation -/

theorem collectMatches_error {ε : Type} (lc : String → String)
    (f : Nat → String → Except ε (List Game)) (u1 u2 : String) (l : List String) (k : Nat)
    (acc : List Game)
    (h : ∃ i archive e, l[i]? = some archive ∧ f (k + i) archive = Except.error e) :
    ∃ e, collectMatches lc f u1 u2 k l acc = Except.error e := by
  induction l generalizing k acc with
  | nil =>
    obtain ⟨i, archive, e, hi, _⟩ := h
    simp at hi
  | cons a rest ih =>
    obtain ⟨i, archive, e, hi, he⟩ := h
    cases hf : f k a with
    | error e0 => exact ⟨e0, by simp [collectMatches, hf]⟩
    | ok games =>
      cases i with
      | zero =>
        simp only [List.getElem?_cons_zero, Option.some.injEq] at hi
        subst hi
        rw [Nat.add_zero, hf] at he
        cases he
      | succ j =>
        simp only [List.getElem?_cons_succ] at hi
        have he' : f (k + 1 + j) archive = Except.error e := by
          rw [Nat.add_assoc, Nat.add_comm 1 j]; exact he
        obtain ⟨e1, h1⟩ := ih (k + 1) (acc ++ playerMatches lc games u1 u2)
          ⟨j, archive, e, hi, he'⟩
        exact ⟨e1, by simp [collectMatches, hf, h1]⟩

/-- C8: in the matches operation, if the fetch of either player's archive index fails, or the
fetch of the games of any shared archive fails (the call of iteration `i` of the loop, on the
`i`-th shared archive), the handler answers with the failure result and no matchup list, whatever
the other fetches returned. -/
theorem matchesHandler_fails_as_a_unit {ε : Type} (toLowerCase : String → String)
    (fetched1 fetched2 : Except ε (List String))
    (fetchGamesFromArchive : Nat → String → Except ε (List Game))
    (username1 username2 : String)
    (hfail : (∃ e, fetched1 = Except.error e) ∨ (∃ e, fetched2 = Except.error e) ∨
      (∃ archives1 archives2 i archive e,
        fetched1 = Except.ok archives1 ∧ fetched2 = Except.ok archives2 ∧
        (commonArchives archives1 archives2)[i]? = some archive ∧
        fetchGamesFromArchive i archive = Except.error e)) :
    matchesHandler toLowerCase fetched1 fetched2 fetchGamesFromArchive username1 username2
      = Response.failure "Impossible de récupérer les matchs" := by
  rcases hfail with ⟨e, h⟩ | ⟨e, h⟩ | ⟨a1, a2, i, archive, e, h1, h2, hi, he⟩
  · subst h
    unfold matchesHandler
    rfl
  · subst h
    unfold matchesHandler
    cases fetched1 <;> rfl
  · subst h1 h2
    obtain ⟨e1, h⟩ := collectMatches_error toLowerCase fetchGamesFromArchive username1 username2
      (commonArchives a1 a2) 0 [] ⟨i, archive, e, hi, by rw [Nat.zero_add]; exact he⟩
    unfold matchesHandler
    simp only [h]

/-- C8, the scenario of the specification: two shared archives, the games of the first are
fetched and contain a matchup, the fetch of the second fails; the answer is the failure result.
With both fetches succeeding the same request answers with the matchup. -/
theorem matchesHandler_fails_as_a_unit_witness :
    matchesHandler asciiLower
      (Except.ok ["https://api.chess.com/pub/player/a/games/2020/01",
        "https://api.chess.com/pub/player/a/games/2020/02"])
      (Except.ok ["https://api.chess.com/pub/player/b/games/2020/01",
        "https://api.chess.com/pub/player/b/games/2020/02"])
      (fun i _ => if i = 0 then Except.ok [⟨⟨"A", "win"⟩, ⟨"b", "checkmated"⟩⟩]
        else Except.error "503")
      "a" "B"
      = Response.failure "Impossible de récupérer les matchs" ∧
    matchesHandler asciiLower
      (Except.ok ["https://api.chess.com/pub/player/a/games/2020/01",
        "https://api.chess.com/pub/player/a/games/2020/02"])
      (Except.ok ["https://api.chess.com/pub/player/b/games/2020/01",
        "https://api.chess.com/pub/player/b/games/2020/02"])
      (fun i _ => if i = 0 then (Except.ok [⟨⟨"A", "win"⟩, ⟨"b", "checkmated"⟩⟩] :
        Except String (List Game)) else Except.ok [])
      "a" "B"
      = Response.success [⟨⟨"A", "win"⟩, ⟨"b", "checkmated"⟩⟩] :=
  ⟨matchesHandler_fails_as_a_unit asciiLower _ _ _ "a" "B"
    (Or.inr (Or.inr ⟨_, _, 1, "https://api.chess.com/pub/player/a/games/2020/02", "503",
      rfl, rfl, by decide, rfl⟩)),
    by decide⟩

end ChessServer
